import Mathlib

/-!
Verification of the reconciliation-and-backup core of the
M4MController/controller-web repository.

The Python source is shallowly embedded: the record store (SQLAlchemy
session + tables) is modelled as lists of records, SQL queries as list
filters, Python dicts as insertion-ordered association lists, raised
exceptions as `Except`/`Option` error values, and side effects of the
backup orchestrator as explicit effect traces.
-/

set_option maxHeartbeats 1000000

namespace ControllerWeb

/-! ## Records and the reconciler (`scripts/sync_data.py`, `_sync_record`) -/

/-- A topology record row: a stable integer id plus its payload columns
(collapsed into one `name` column; `_record_to_dict` copies every column,
so an update replaces the whole row). -/
structure Rec where
  id : Int
  name : String
deriving DecidableEq, Repr

/-- Python dict from record id to `Option Rec` (`new_records_map`:
values are the desired records, set to `None` once consumed).
Insertion-ordered association list with unique keys. -/
abbrev RecDict := List (Int × Option Rec)

/-- Python `d[k]` membership test `k in d`. -/
def hasKey : RecDict → Int → Bool
  | [], _ => false
  | p :: rest, k => p.1 == k || hasKey rest k

/-- Python `d[k]` lookup (first matching key; keys are unique). -/
def getVal : RecDict → Int → Option Rec
  | [], _ => none
  | p :: rest, k => if p.1 == k then p.2 else getVal rest k

/-- Python `d[k] = v`: overwrite in place if the key exists, else append. -/
def dictSet (m : RecDict) (k : Int) (v : Option Rec) : RecDict :=
  if hasKey m k then
    m.map (fun p => if p.1 == k then (k, v) else p)
  else m ++ [(k, v)]

/-- `new_records_map = {record.id: record for record in new_records}`,
generalized over the accumulator for induction. -/
def buildMapFrom (m : RecDict) : List Rec → RecDict
  | [] => m
  | r :: rest => buildMapFrom (dictSet m r.id (some r)) rest

def buildMap (new : List Rec) : RecDict := buildMapFrom [] new

/-- One store operation issued by `_sync_record` against the session:
`session.query(...).filter_by(id=...).update(...)`, `session.delete(...)`,
or `session.add(...)`. -/
inductive Op where
  | update (id : Int) (r : Rec)
  | delete (id : Int)
  | insert (r : Rec)
deriving DecidableEq, Repr

def Op.isUpdate : Op → Bool
  | .update _ _ => true
  | _ => false

def Op.isDelete : Op → Bool
  | .delete _ => true
  | _ => false

def Op.isInsert : Op → Bool
  | .insert _ => true
  | _ => false

/-- The first loop of `_sync_record`: for each local row, issue an update
if its id is in the map (the map value is the desired record; a `None`
value there would make `_record_to_dict(None)` raise, modelled as the
`none` result) else issue a delete; in both cases set the map entry for
the row's id to `None`. Returns the issued ops and the final map. -/
def runDbLoop : List Rec → RecDict → Option (List Op × RecDict)
  | [], m => some ([], m)
  | dbr :: rest, m =>
    if hasKey m dbr.id then
      match getVal m dbr.id with
      | some r =>
        match runDbLoop rest (dictSet m dbr.id none) with
        | some (ops, m2) => some (Op.update dbr.id r :: ops, m2)
        | none => none
      | none => none
    else
      match runDbLoop rest (dictSet m dbr.id none) with
      | some (ops, m2) => some (Op.delete dbr.id :: ops, m2)
      | none => none

/-- The second loop of `_sync_record`: `session.add` every map value that
is not `None`, in map order. -/
def insertOps (m : RecDict) : List Op :=
  m.filterMap (fun p => p.2.map Op.insert)

/-- `_sync_record(session, Model, db_records, new_records)`: the full
sequence of store operations it issues, or `none` if it raises. -/
def syncRecord (db new : List Rec) : Option (List Op) :=
  match runDbLoop db (buildMap new) with
  | some (ops, m2) => some (ops ++ insertOps m2)
  | none => none

/-- Effect of one operation on the table contents.  An update rewrites
every row matching the id (the update dict carries all columns, id
included); a delete removes the row; an add appends a new row. -/
def applyOp (store : List Rec) : Op → List Rec
  | .update i r => store.map (fun s => if s.id == i then r else s)
  | .delete i => store.filter (fun s => !(s.id == i))
  | .insert r => store ++ [r]

/-- Apply a whole batch of operations in issue order (the state of the
table after `session.commit()`). -/
def applyOps : List Rec → List Op → List Rec
  | store, [] => store
  | store, op :: rest => applyOps (applyOp store op) rest

/-- First desired record carrying the given id. -/
def findById (new : List Rec) (i : Int) : Option Rec :=
  new.find? (fun r => r.id == i)

/-- The operation batch described by the spec (§4.1): an update for every
local row whose id has a desired counterpart, a delete for every other
local row, then an insert for every desired record with no local
counterpart. Stated from the spec's algorithm, to be compared with
`syncRecord`. -/
def reconcileOps (db new : List Rec) : List Op :=
  db.map (fun dbr =>
    match findById new dbr.id with
    | some r => Op.update dbr.id r
    | none => Op.delete dbr.id)
  ++ (new.filter (fun r => !(db.any (fun dbr => dbr.id == r.id)))).map Op.insert

/-- Replace by `None` the value of every entry whose key is among `ids`
(the shape of `new_records_map` after the first loop has consumed the
ids of the processed local rows). -/
def dropKeysL (m : RecDict) (ids : List Int) : RecDict :=
  m.map (fun p => if ids.any (fun i => i == p.1) then (p.1, none) else p)

/-- The claims' worked scenario: local records. -/
def scenarioDb : List Rec := [⟨1, "A"⟩, ⟨2, "B"⟩]

/-- The claims' worked scenario: desired records. -/
def scenarioNew : List Rec := [⟨2, "B2"⟩, ⟨3, "C"⟩]

/-! ## Timestamps

Sensor readings embed a `"%Y-%m-%dT%H:%M:%S"` UTC timestamp string in
their JSON payload; queries cast it to a SQL `DateTime` and compare.
On well-formed timestamps that comparison is the field-lexicographic
calendar order. -/

structure DateTime where
  year : Nat
  month : Nat
  day : Nat
  hour : Nat
  minute : Nat
  second : Nat
deriving DecidableEq, Repr

/-- Strict calendar order (lexicographic on the six fields). -/
def dtLt (a b : DateTime) : Bool :=
  if a.year < b.year then true else if b.year < a.year then false
  else if a.month < b.month then true else if b.month < a.month then false
  else if a.day < b.day then true else if b.day < a.day then false
  else if a.hour < b.hour then true else if b.hour < a.hour then false
  else if a.minute < b.minute then true else if b.minute < a.minute then false
  else decide (a.second < b.second)

/-- Non-strict calendar order. -/
def dtLe (a b : DateTime) : Bool := dtLt a b || a == b

/-! ## Sensor readings and the time-range query engine
(`server/database/managers.py`, `SensorDataManager`) -/

/-- One row of the `sensor_data` table: integer primary key `id`
(ascending in insertion order), owning `sensor_id`, and the JSON `data`
payload, whose `timestamp` member is modelled already parsed and whose
`value` member is a JSON object modelled as a key/value list. -/
structure SensorData where
  id : Nat
  sensor_id : String
  timestamp : DateTime
  value : List (String × String)
deriving DecidableEq, Repr

/-- `query(SensorData).filter(sensor_id == sid)`. -/
def rowsForSensor (rows : List SensorData) (sid : String) : List SensorData :=
  rows.filter (fun r => r.sensor_id == sid)

/-- `order_by(id.asc()).limit(1)`: the row with the least primary key. -/
def minIdRow : List SensorData → Option SensorData
  | [] => none
  | r :: rest =>
    match minIdRow rest with
    | none => some r
    | some r2 => if r.id ≤ r2.id then some r else some r2

/-- `SensorDataManager.get_first_sensor_data_date`: the timestamp of the
sensor's row with the least id, or `none` when the sensor has no rows. -/
def get_first_sensor_data_date (rows : List SensorData) (sid : String) : Option DateTime :=
  (minIdRow (rowsForSensor rows sid)).map SensorData.timestamp

/-- `m4m_sync.utils.DateTimeRange`; the source attribute `end` is a Lean
keyword, rendered here as `stop`. -/
structure DateTimeRange where
  start : DateTime
  stop : DateTime
deriving DecidableEq, Repr

/-- `SensorDataManager.get_sensor_data_in_time_range`: rows of the sensor
whose timestamp satisfies `start <= t` and `t <= end` (both inclusive). -/
def get_sensor_data_in_time_range (rows : List SensorData) (sid : String)
    (range : DateTimeRange) : List SensorData :=
  rows.filter (fun r =>
    r.sensor_id == sid && dtLe range.start r.timestamp && dtLe r.timestamp range.stop)

/-- `datetime.strptime` / `datetime` constructor leap-year rule. -/
def isLeap (y : Nat) : Bool := (y % 4 == 0 && y % 100 != 0) || y % 400 == 0

def daysInMonth (y mo : Nat) : Nat :=
  if mo == 2 then (if isLeap y then 29 else 28)
  else if mo == 4 || mo == 6 || mo == 9 || mo == 11 then 30
  else 31

def digitsToNat (cs : List Char) : Nat :=
  cs.foldl (fun n c => 10 * n + (c.toNat - 48)) 0

/-- `datetime.strptime(s, "%Y-%m-%dT%H:%M:%S")`: succeeds exactly when
the string has the fixed 19-character shape and the fields form a valid
datetime; any other input raises `ValueError`, modelled as `none`. -/
def strptime (s : String) : Option DateTime :=
  match s.toList with
  | [y1, y2, y3, y4, '-', m1, m2, '-', d1, d2, 'T', h1, h2, ':', n1, n2, ':', s1, s2] =>
    if ([y1, y2, y3, y4, m1, m2, d1, d2, h1, h2, n1, n2, s1, s2].all Char.isDigit) then
      let y := digitsToNat [y1, y2, y3, y4]
      let mo := digitsToNat [m1, m2]
      let d := digitsToNat [d1, d2]
      let h := digitsToNat [h1, h2]
      let mi := digitsToNat [n1, n2]
      let se := digitsToNat [s1, s2]
      if 1 ≤ y && 1 ≤ mo && mo ≤ 12 && 1 ≤ d && d ≤ daysInMonth y mo
          && h ≤ 23 && mi ≤ 59 && se ≤ 59 then
        some ⟨y, mo, d, h, mi, se⟩
      else none
    else none
  | _ => none

/-- `SensorDataManager.get_sensor_data(sensor_id, time_from, field)`:
filter by sensor; if `time_from` is given and parses, add a strict
`timestamp > from_date` filter, and if it does not parse, log a warning
and add no time filter; if `field` is given (with `time_stamp` renamed
to `timestamp`), keep only rows whose `value` object has that member and
shrink each returned row's `value` to that single member. -/
def get_sensor_data (rows : List SensorData) (sid : String)
    (time_from : Option String) (field : Option String) : List SensorData :=
  let q1 := rowsForSensor rows sid
  let q2 :=
    match time_from with
    | none => q1
    | some s =>
      match strptime s with
      | some d => q1.filter (fun r => dtLt d r.timestamp)
      | none => q1
  match field with
  | none => q2
  | some f0 =>
    let f := if f0 == "time_stamp" then "timestamp" else f0
    let q3 := q2.filter (fun r => (r.value.find? (fun p => p.1 == f)).isSome)
    q3.map (fun r =>
      match r.value.find? (fun p => p.1 == f) with
      | some p => { r with value := [(f, p.2)] }
      | none => r)

/-- The claims' worked scenario: sensor `S1` with readings at three
consecutive midnights, inserted in id order. -/
def scenarioReadings : List SensorData :=
  [⟨1, "S1", ⟨2023, 1, 1, 0, 0, 0⟩, []⟩,
   ⟨2, "S1", ⟨2023, 1, 2, 0, 0, 0⟩, []⟩,
   ⟨3, "S1", ⟨2023, 1, 3, 0, 0, 0⟩, []⟩]

/-- Readings of one sensor inserted out of chronological order: the row
with the smaller id carries the later timestamp. -/
def outOfOrderReadings : List SensorData :=
  [⟨1, "S1", ⟨2023, 1, 2, 0, 0, 0⟩, []⟩,
   ⟨2, "S1", ⟨2023, 1, 1, 0, 0, 0⟩, []⟩]

/-! ## Snapshot decoding (`scripts/sync_data.py`, `receive_objects`)

The schemas are marshmallow 2.x `Schema`s: `schema.load(x)` returns an
`UnmarshalResult` with `.data` (the successfully coerced fields) and
`.errors` (per-field error messages); it does not raise on a field that
fails coercion — the field is simply absent from `.data`.  The rest of
the repository uses the same API (`resources/utils.py` inspects
`load_result.errors` explicitly).  `receive_objects` reads only `.data`
and never looks at `.errors`. -/

inductive JVal where
  | jnum (n : Int)
  | jstr (s : String)
  | jbool (b : Bool)
  | jnull
deriving DecidableEq, Repr

/-- A decoded JSON object. -/
abbrev JObj := List (String × JVal)

def jLookup (o : JObj) (k : String) : Option JVal :=
  (o.find? (fun p => p.1 == k)).map (fun p => p.2)

/-- Python `int(s)`: an optional sign followed by at least one digit
(whitespace/underscore forms are elided; they do not affect the claims). -/
def parseIntStr (s : String) : Option Int :=
  let core (cs : List Char) (sign : Int) : Option Int :=
    if cs ≠ [] && cs.all Char.isDigit then some (sign * (digitsToNat cs : Int)) else none
  match s.toList with
  | '-' :: rest => core rest (-1)
  | '+' :: rest => core rest 1
  | cs => core cs 1

/-- Outcome of deserializing one schema field of one element:
the key was absent from the input (field omitted from `.data`),
coercion succeeded (field present in `.data`), or coercion failed
(an entry in `.errors`, field omitted from `.data`). -/
inductive FieldOut (α : Type) where
  | missing
  | ok (a : α)
  | fieldError
deriving DecidableEq, Repr

def FieldOut.val : FieldOut α → Option α
  | .ok a => some a
  | _ => none

def FieldOut.errs (name : String) : FieldOut α → List String
  | .fieldError => [name]
  | _ => []

/-- `marshmallow.fields.Integer` deserialization: `int(value)`. -/
def coerceInt : Option JVal → FieldOut Int
  | none => .missing
  | some (JVal.jnum n) => .ok n
  | some (JVal.jbool b) => .ok (if b then 1 else 0)
  | some (JVal.jstr s) =>
    match parseIntStr s with
    | some n => .ok n
    | none => .fieldError
  | some JVal.jnull => .fieldError

/-- `marshmallow.fields.String` deserialization: `text_type(value)`. -/
def coerceStr : Option JVal → FieldOut String
  | none => .missing
  | some (JVal.jstr s) => .ok s
  | some (JVal.jnum n) => .ok (toString n)
  | some (JVal.jbool b) => .ok (if b then "True" else "False")
  | some JVal.jnull => .fieldError

/-- A calendar date, as produced by `marshmallow.fields.Date`. -/
structure MDate where
  year : Nat
  month : Nat
  day : Nat
deriving DecidableEq, Repr

/-- ISO `YYYY-MM-DD` date parsing used by `marshmallow.fields.Date`. -/
def parseDateStr (s : String) : Option MDate :=
  match s.toList with
  | [y1, y2, y3, y4, '-', m1, m2, '-', d1, d2] =>
    if ([y1, y2, y3, y4, m1, m2, d1, d2].all Char.isDigit) then
      let y := digitsToNat [y1, y2, y3, y4]
      let mo := digitsToNat [m1, m2]
      let d := digitsToNat [d1, d2]
      if 1 ≤ y && 1 ≤ mo && mo ≤ 12 && 1 ≤ d && d ≤ daysInMonth y mo then
        some ⟨y, mo, d⟩
      else none
    else none
  | _ => none

def coerceDate : Option JVal → FieldOut MDate
  | none => .missing
  | some (JVal.jstr s) =>
    match parseDateStr s with
    | some d => .ok d
    | none => .fieldError
  | _ => .fieldError

/-- `models.Sensor(**sensor_schema.load(x).data)`: columns absent from
`.data` stay at the model default (`None`). -/
structure MSensor where
  id : Option Int
  name : Option String
  status : Option Int
  type : Option Int
  controller_id : Option Int
deriving DecidableEq, Repr

/-- `models.Controller(**controller_schema.load(x).data)`. -/
structure MController where
  id : Option Int
  name : Option String
  object_id : Option Int
  meta : Option String
  activation_date : Option MDate
  status : Option Int
  mac : Option String
  deactivation_date : Option String
  controller_type : Option Int
deriving DecidableEq, Repr

/-- Modelled from the spec: `server/database/schemas.py` (the module
defining `ObjectSchema`) is not part of the provided sources; spec §6
gives the Object field shape `{id, name, user_id}` with integer ids. -/
structure MObject where
  id : Option Int
  name : Option String
  user_id : Option Int
deriving DecidableEq, Repr

/-- `SensorSchema().load(o)`: the `.data` record and the `.errors` keys. -/
def loadSensor (o : JObj) : MSensor × List String :=
  let i := coerceInt (jLookup o "id")
  let n := coerceStr (jLookup o "name")
  let st := coerceInt (jLookup o "status")
  let ty := coerceInt (jLookup o "type")
  let ci := coerceInt (jLookup o "controller_id")
  (⟨i.val, n.val, st.val, ty.val, ci.val⟩,
   i.errs "id" ++ n.errs "name" ++ st.errs "status" ++ ty.errs "type"
     ++ ci.errs "controller_id")

/-- `ControllerSchema().load(o)`. -/
def loadController (o : JObj) : MController × List String :=
  let i := coerceInt (jLookup o "id")
  let n := coerceStr (jLookup o "name")
  let oi := coerceInt (jLookup o "object_id")
  let me := coerceStr (jLookup o "meta")
  let ad := coerceDate (jLookup o "activation_date")
  let st := coerceInt (jLookup o "status")
  let ma := coerceStr (jLookup o "mac")
  let dd := coerceStr (jLookup o "deactivation_date")
  let ct := coerceInt (jLookup o "controller_type")
  (⟨i.val, n.val, oi.val, me.val, ad.val, st.val, ma.val, dd.val, ct.val⟩,
   i.errs "id" ++ n.errs "name" ++ oi.errs "object_id" ++ me.errs "meta"
     ++ ad.errs "activation_date" ++ st.errs "status" ++ ma.errs "mac"
     ++ dd.errs "deactivation_date" ++ ct.errs "controller_type")

/-- `ObjectSchema().load(o)` over the spec-modelled object schema. -/
def loadObject (o : JObj) : MObject × List String :=
  let i := coerceInt (jLookup o "id")
  let n := coerceStr (jLookup o "name")
  let ui := coerceInt (jLookup o "user_id")
  (⟨i.val, n.val, ui.val⟩, i.errs "id" ++ n.errs "name" ++ ui.errs "user_id")

/-- The decode stage of `receive_objects`, applied to the three
collections of the response's `msg` member: one model instance per input
element, built from each element's `.data` only (`.errors` ignored). -/
def receiveObjects (objs ctrls sens : List JObj) :
    List MObject × List MController × List MSensor :=
  (objs.map (fun o => (loadObject o).1),
   ctrls.map (fun o => (loadController o).1),
   sens.map (fun o => (loadSensor o).1))

/-- A sensor element whose `id` fails integer coercion. -/
def badSensorElem : JObj := [("id", JVal.jstr "abc"), ("name", JVal.jstr "S")]

/-! ## Cloud backup orchestrator
(`server/database/managers.py`, `UserSocialTokensManager.sync_all` / `__sync`) -/

structure CController where
  id : Nat
  name : String
  mac : String
deriving DecidableEq, Repr

structure CSensor where
  id : Nat
  name : String
  controller_id : Nat
deriving DecidableEq, Repr

/-- `user_info` row (only the columns `sync_all` touches). -/
structure UserInfoRow where
  user_id : Nat
  encrypt_key : Option String
deriving DecidableEq, Repr

/-- `user_social_tokens` row. -/
structure UserSocialTokens where
  user_id : Nat
  yandex_disk : Option String
deriving DecidableEq, Repr

/-- The local database visible to the backup orchestrator. -/
structure SyncWorld where
  userInfos : List UserInfoRow
  controllers : List CController
  sensors : List CSensor
deriving Repr

/-- One observable step of a backup run: a local database query or a
network call to the destination store. -/
inductive SyncEffect where
  | dbQueryControllers
  | dbQuerySensors (controllerId : Nat)
  | dbQueryFirstDate (sensorId : Nat)
  | netPrepareController (name mac : String)
  | netPrepareSensor (name : String) (sensorId : Nat)
  | netSync (sensorId : Nat)
deriving DecidableEq, Repr

/-- Python truthiness of an optional string column (`if not key`,
`if user_tokens.yandex_disk`). -/
def truthy : Option String → Bool
  | none => false
  | some s => !(s == "")

/-- The inner sensor loop of `__sync`: per sensor, read its first data
date, announce the sensor to the store, then `store.sync`; `failAt`
tells which sensors' `store.sync` raises.  Returns the trace of effects
performed and the propagated exception, if any. -/
def syncSensorLoop (failAt : Nat → Bool) : List CSensor → List SyncEffect × Option String
  | [] => ([], none)
  | s :: rest =>
    let effs := [SyncEffect.dbQueryFirstDate s.id,
                 SyncEffect.netPrepareSensor s.name s.id,
                 SyncEffect.netSync s.id]
    if failAt s.id then (effs, some "store.sync failed")
    else
      let step := syncSensorLoop failAt rest
      (effs ++ step.1, step.2)

/-- The outer controller loop of `__sync`: announce the controller,
query its sensors, run the sensor loop; an exception escaping the sensor
loop aborts everything after it. -/
def syncControllerLoop (w : SyncWorld) (failAt : Nat → Bool) :
    List CController → List SyncEffect × Option String
  | [] => ([], none)
  | c :: rest =>
    let sensors := w.sensors.filter (fun s => s.controller_id == c.id)
    let inner := syncSensorLoop failAt sensors
    let head := SyncEffect.netPrepareController c.name c.mac
                  :: SyncEffect.dbQuerySensors c.id :: inner.1
    match inner.2 with
    | some err => (head, some err)
    | none =>
      let step := syncControllerLoop w failAt rest
      (head ++ step.1, step.2)

/-- `UserSocialTokensManager.__sync`. -/
def uSync (w : SyncWorld) (failAt : Nat → Bool) : List SyncEffect × Option String :=
  let step := syncControllerLoop w failAt w.controllers
  (SyncEffect.dbQueryControllers :: step.1, step.2)

/-- `UserSocialTokensManager.sync_all`: unpack the user's encrypt key
(`first()` returning no row makes the unpacking raise `TypeError`);
a falsy key returns with no effect; a truthy `yandex_disk` token starts
`__sync` against the Yandex store. -/
def sync_all (w : SyncWorld) (ut : UserSocialTokens) (failAt : Nat → Bool) :
    List SyncEffect × Option String :=
  match (w.userInfos.filter (fun ui => ui.user_id == ut.user_id)).head? with
  | none => ([], some "TypeError: cannot unpack non-iterable NoneType object")
  | some ui =>
    if truthy ui.encrypt_key then
      if truthy ut.yandex_disk then uSync w failAt
      else ([], none)
    else ([], none)

/-! ## `SensorManager.create_or_update` -/

/-- A row of the `sensor` table as this operation sees it. -/
structure SensorRow where
  id : Nat
  name : String
  activation_date : DateTime
  controller_id : Nat
  status : Option Int
  sensor_type : Option Int
deriving DecidableEq, Repr

/-- The request payload (`SensorPrivateResource.Schema`): keys that may
be present in the `data` dict. -/
structure SensorPayload where
  name : Option String
  status : Option Int
  sensor_type : Option Int
deriving DecidableEq, Repr

/-- `SensorManager.default_names`: `{5: 'OBD', 6: 'GPS'}`; a miss is a
`KeyError`. -/
def default_names (t : Int) : Option String :=
  if t == 5 then some "OBD" else if t == 6 then some "GPS" else none

/-- `query.update(data)`: set exactly the columns whose keys are in the
payload dict. -/
def updateSensorRow (s : SensorRow) (d : SensorPayload) : SensorRow :=
  { s with
    name := d.name.getD s.name
    status := match d.status with | some v => some v | none => s.status
    sensor_type := match d.sensor_type with | some v => some v | none => s.sensor_type }

/-- `SensorManager.create_or_update(id, data)`.  If a row with the id
exists, update it in place.  Otherwise Python evaluates
`data.pop('name', self.default_names[data['sensor_type']])`: the default
argument is evaluated first, so a missing `sensor_type` key or one
outside `{5, 6}` raises `KeyError` before anything else; on success a
new row is inserted with `controller_id=1` and `activation_date=now()`
(the nondeterministic clock passed as `now`). -/
def create_or_update (table : List SensorRow) (now : DateTime) (id : Nat)
    (d : SensorPayload) : Except String (List SensorRow) :=
  if table.any (fun s => s.id == id) then
    .ok (table.map (fun s => if s.id == id then updateSensorRow s d else s))
  else
    match d.sensor_type with
    | none => .error "KeyError"
    | some t =>
      match default_names t with
      | none => .error "KeyError"
      | some dflt =>
        .ok (table ++ [{ id := id, name := d.name.getD dflt, activation_date := now,
                         controller_id := 1, status := d.status, sensor_type := some t }])

/-! ## `provide_db_session` (`server/resources/utils.py`) -/

/-- The scoped SQLAlchemy session: rows already committed, writes pending
in the current transaction, and whether a session is active. -/
structure DbSession (W : Type) where
  committed : List W
  pending : List W
  active : Bool
deriving DecidableEq, Repr

def sessionBegin (s : DbSession W) : DbSession W :=
  { s with active := true }

def sessionCommit (s : DbSession W) : DbSession W :=
  { s with committed := s.committed ++ s.pending, pending := [] }

def sessionRollback (s : DbSession W) : DbSession W :=
  { s with pending := [] }

def sessionRemove (s : DbSession W) : DbSession W :=
  { s with pending := [], active := false }

/-- A wrapped handler: it either returns a value or raises an exception,
in both cases having issued some writes to the session first. -/
def Handler (E A W : Type) := Except (E × List W) (A × List W)

/-- `provide_db_session(func)`: open the session, run the handler; on
normal return commit and return the result; on an exception roll back
and re-raise the same exception; in all cases remove the session. -/
def provide_db_session (handler : Handler E A W) (s : DbSession W) :
    Except E A × DbSession W :=
  let s0 := sessionBegin s
  match handler with
  | .ok (a, ws) =>
    let s1 := sessionCommit { s0 with pending := s0.pending ++ ws }
    (.ok a, sessionRemove s1)
  | .error (e, ws) =>
    let s1 := sessionRollback { s0 with pending := s0.pending ++ ws }
    (.error e, sessionRemove s1)

/-! ## Theorems -/

/-! ### C10: `provide_db_session` commit-or-rollback -/

/-- C10: for every wrapped handler, a normal return commits the pending
writes and returns the result; an exception rolls the pending writes
back (the committed rows are exactly what they were before) and the same
exception is re-raised; on both paths the session ends removed with no
pending writes. -/
theorem provide_db_session_commit_or_rollback {E A W : Type}
    (handler : Handler E A W) (s : DbSession W) :
    (∀ a ws, handler = .ok (a, ws) →
      provide_db_session handler s
        = (.ok a, ⟨s.committed ++ s.pending ++ ws, [], false⟩)) ∧
    (∀ e ws, handler = .error (e, ws) →
      provide_db_session handler s = (.error e, ⟨s.committed, [], false⟩)) := by
  constructor
  · intro a ws h
    subst h
    simp [provide_db_session, sessionBegin, sessionCommit, sessionRemove]
  · intro e ws h
    subst h
    simp [provide_db_session, sessionBegin, sessionRollback, sessionRemove]

theorem provide_db_session_commit_or_rollback_witness :
    provide_db_session (Except.ok ((3 : Nat), ["w"]) : Handler String Nat String)
        ⟨["c"], [], false⟩ = (.ok 3, ⟨["c", "w"], [], false⟩) ∧
    provide_db_session (Except.error (("boom" : String), ["w"]) : Handler String Nat String)
        ⟨["c"], [], false⟩ = (.error "boom", ⟨["c"], [], false⟩) :=
  ⟨(provide_db_session_commit_or_rollback _ _).1 3 ["w"] rfl,
   (provide_db_session_commit_or_rollback _ _).2 "boom" ["w"] rfl⟩

/-! ### C5: `sync_all` with no encryption key -/

/-- C5: when the user's `user_info` row is found and its encryption key
is falsy (absent or empty), `sync_all` returns at once with an empty
effect trace (no database query of controllers or sensors, no network
call, no write) and no error. -/
theorem sync_all_no_key_silent (w : SyncWorld) (ut : UserSocialTokens)
    (failAt : Nat → Bool) (ui : UserInfoRow)
    (h1 : (w.userInfos.filter (fun x => x.user_id == ut.user_id)).head? = some ui)
    (h2 : truthy ui.encrypt_key = false) :
    sync_all w ut failAt = ([], none) := by
  simp [sync_all, h1, h2]

theorem sync_all_no_key_silent_witness :
    (((SyncWorld.mk [⟨1, none⟩] [⟨1, "c", "m"⟩] [⟨7, "s", 1⟩]).userInfos.filter
        (fun x => x.user_id == (1 : Nat))).head? = some ⟨1, none⟩) ∧
    sync_all ⟨[⟨1, none⟩], [⟨1, "c", "m"⟩], [⟨7, "s", 1⟩]⟩ ⟨1, some "tok"⟩
        (fun _ => true) = ([], none) :=
  ⟨rfl, sync_all_no_key_silent _ ⟨1, some "tok"⟩ _ ⟨1, none⟩ rfl rfl⟩

/-! ### C8: a failing sensor export aborts the rest of the run -/

/-- C8: per-sensor failures are not isolated.  If the sensor loop of the
first controller ends in an exception, the whole controller loop returns
that same exception having performed only the first controller's
effects, whatever controllers remain; and within the sensor loop, a
sensor whose `store.sync` raises ends the loop with only that sensor's
effects, whatever sensors remain. -/
theorem sync_failure_aborts_run (w : SyncWorld) (failAt : Nat → Bool)
    (c : CController) (crest : List CController)
    (effs : List SyncEffect) (err : String)
    (h : syncSensorLoop failAt (w.sensors.filter (fun s => s.controller_id == c.id))
          = (effs, some err)) :
    syncControllerLoop w failAt (c :: crest)
      = (SyncEffect.netPrepareController c.name c.mac
          :: SyncEffect.dbQuerySensors c.id :: effs, some err) ∧
    ∀ (s : CSensor) (srest : List CSensor), failAt s.id = true →
      syncSensorLoop failAt (s :: srest)
        = ([SyncEffect.dbQueryFirstDate s.id, SyncEffect.netPrepareSensor s.name s.id,
            SyncEffect.netSync s.id], some "store.sync failed") := by
  constructor
  · simp [syncControllerLoop, h]
  · intro s srest hf
    simp [syncSensorLoop, hf]

theorem sync_failure_aborts_run_witness :
    (syncSensorLoop (fun i => i == 7)
        ((SyncWorld.mk [] [⟨1, "c", "m"⟩, ⟨2, "c2", "m2"⟩] [⟨7, "s", 1⟩, ⟨8, "s2", 1⟩]).sensors.filter
          (fun s => s.controller_id == (CController.mk 1 "c" "m").id))
      = ([SyncEffect.dbQueryFirstDate 7, SyncEffect.netPrepareSensor "s" 7,
          SyncEffect.netSync 7], some "store.sync failed")) ∧
    (syncControllerLoop ⟨[], [⟨1, "c", "m"⟩, ⟨2, "c2", "m2"⟩], [⟨7, "s", 1⟩, ⟨8, "s2", 1⟩]⟩
        (fun i => i == 7) [⟨1, "c", "m"⟩, ⟨2, "c2", "m2"⟩]
      = (SyncEffect.netPrepareController "c" "m" :: SyncEffect.dbQuerySensors 1
          :: [SyncEffect.dbQueryFirstDate 7, SyncEffect.netPrepareSensor "s" 7,
              SyncEffect.netSync 7], some "store.sync failed")) ∧
    ∀ (s : CSensor) (srest : List CSensor), (fun i => i == 7) s.id = true →
      syncSensorLoop (fun i => i == 7) (s :: srest)
        = ([SyncEffect.dbQueryFirstDate s.id, SyncEffect.netPrepareSensor s.name s.id,
            SyncEffect.netSync s.id], some "store.sync failed") :=
  ⟨by decide,
   (sync_failure_aborts_run ⟨[], [⟨1, "c", "m"⟩, ⟨2, "c2", "m2"⟩], [⟨7, "s", 1⟩, ⟨8, "s2", 1⟩]⟩
      (fun i => i == 7) ⟨1, "c", "m"⟩ [⟨2, "c2", "m2"⟩]
      [SyncEffect.dbQueryFirstDate 7, SyncEffect.netPrepareSensor "s" 7, SyncEffect.netSync 7]
      "store.sync failed" (by decide)).1,
   (sync_failure_aborts_run ⟨[], [⟨1, "c", "m"⟩, ⟨2, "c2", "m2"⟩], [⟨7, "s", 1⟩, ⟨8, "s2", 1⟩]⟩
      (fun i => i == 7) ⟨1, "c", "m"⟩ [⟨2, "c2", "m2"⟩]
      [SyncEffect.dbQueryFirstDate 7, SyncEffect.netPrepareSensor "s" 7, SyncEffect.netSync 7]
      "store.sync failed" (by decide)).2⟩

/-! ### C7: malformed `from` filter degrades to no lower bound -/

/-- C7: when the `from` string does not parse in `%Y-%m-%dT%H:%M:%S`
format, `get_sensor_data` does not raise and returns exactly what the
same query without a `from` filter returns. -/
theorem get_sensor_data_malformed_from (rows : List SensorData) (sid : String)
    (s : String) (field : Option String) (h : strptime s = none) :
    get_sensor_data rows sid (some s) field = get_sensor_data rows sid none field := by
  simp [get_sensor_data, h]

theorem get_sensor_data_malformed_from_witness :
    strptime "2023-13-01T00:00:00" = none ∧
    get_sensor_data scenarioReadings "S1" (some "2023-13-01T00:00:00") none
      = get_sensor_data scenarioReadings "S1" none none :=
  ⟨by decide,
   get_sensor_data_malformed_from scenarioReadings "S1" "2023-13-01T00:00:00" none (by decide)⟩

/-! ### C4: inclusive time-range query -/

/-- C4: for timestamps `t0 <= t1`, `get_sensor_data_in_time_range`
returns exactly the rows of the sensor whose timestamp `t` satisfies
`t0 <= t <= t1`, inclusive on both bounds; in the worked scenario the
point query at `2023-01-02T00:00:00` returns exactly that one reading. -/
theorem time_range_inclusive (rows : List SensorData) (sid : String)
    (t0 t1 : DateTime) (h : dtLe t0 t1 = true) :
    (∀ r, r ∈ get_sensor_data_in_time_range rows sid ⟨t0, t1⟩ ↔
      (r ∈ rows ∧ r.sensor_id = sid ∧ dtLe t0 r.timestamp = true
        ∧ dtLe r.timestamp t1 = true)) ∧
    get_sensor_data_in_time_range scenarioReadings "S1"
        ⟨⟨2023, 1, 2, 0, 0, 0⟩, ⟨2023, 1, 2, 0, 0, 0⟩⟩
      = [⟨2, "S1", ⟨2023, 1, 2, 0, 0, 0⟩, []⟩] := by
  constructor
  · intro r
    simp [get_sensor_data_in_time_range, List.mem_filter, and_assoc]
  · decide

theorem time_range_inclusive_witness :
    dtLe ⟨2023, 1, 2, 0, 0, 0⟩ ⟨2023, 1, 2, 0, 0, 0⟩ = true ∧
    ((∀ r, r ∈ get_sensor_data_in_time_range scenarioReadings "S1"
        ⟨⟨2023, 1, 2, 0, 0, 0⟩, ⟨2023, 1, 2, 0, 0, 0⟩⟩ ↔
      (r ∈ scenarioReadings ∧ r.sensor_id = "S1"
        ∧ dtLe ⟨2023, 1, 2, 0, 0, 0⟩ r.timestamp = true
        ∧ dtLe r.timestamp ⟨2023, 1, 2, 0, 0, 0⟩ = true)) ∧
    get_sensor_data_in_time_range scenarioReadings "S1"
        ⟨⟨2023, 1, 2, 0, 0, 0⟩, ⟨2023, 1, 2, 0, 0, 0⟩⟩
      = [⟨2, "S1", ⟨2023, 1, 2, 0, 0, 0⟩, []⟩]) :=
  ⟨by decide, time_range_inclusive scenarioReadings "S1" _ _ (by decide)⟩

/-! ### C9: partiality of `SensorManager.create_or_update` -/

/-- C9: on the insert path (no row with the id exists), a payload with
no `name` and a `sensor_type` outside `{5, 6}` raises `KeyError`; a
nameless payload of type 5 inserts with name `OBD`, of type 6 with name
`GPS`; and any inserted row has `controller_id = 1` regardless of the
input. -/
theorem create_or_update_behavior (table : List SensorRow) (now : DateTime)
    (id : Nat) (d : SensorPayload)
    (hno : table.any (fun s => s.id == id) = false) :
    (∀ t, d.sensor_type = some t → d.name = none → t ≠ 5 → t ≠ 6 →
      create_or_update table now id d = .error "KeyError") ∧
    (d.name = none → d.sensor_type = some 5 →
      create_or_update table now id d
        = .ok (table ++ [⟨id, "OBD", now, 1, d.status, some 5⟩])) ∧
    (d.name = none → d.sensor_type = some 6 →
      create_or_update table now id d
        = .ok (table ++ [⟨id, "GPS", now, 1, d.status, some 6⟩])) ∧
    (∀ r, create_or_update table now id d = .ok (table ++ [r]) →
      r.controller_id = 1) := by
  refine ⟨?_, ?_, ?_, ?_⟩
  · intro t ht hn h5 h6
    have hd : default_names t = none := by simp [default_names, h5, h6]
    simp [create_or_update, hno, ht, hd]
  · intro hn ht
    simp [create_or_update, hno, ht, hn, default_names, Option.getD]
  · intro hn ht
    simp [create_or_update, hno, ht, hn, default_names, Option.getD]
  · intro r hr
    simp only [create_or_update, hno, Bool.false_eq_true, if_false] at hr
    split at hr
    · simp at hr
    · split at hr
      · simp at hr
      · simp only [Except.ok.injEq] at hr
        have h2 := List.append_cancel_left hr
        simp only [List.cons.injEq] at h2
        rw [← h2.1]

theorem create_or_update_behavior_witness :
    ([] : List SensorRow).any (fun s => s.id == 9) = false ∧
    create_or_update [] ⟨2020, 1, 1, 0, 0, 0⟩ 9 ⟨none, some 1, some 3⟩
      = .error "KeyError" ∧
    create_or_update [] ⟨2020, 1, 1, 0, 0, 0⟩ 9 ⟨none, some 1, some 5⟩
      = .ok [⟨9, "OBD", ⟨2020, 1, 1, 0, 0, 0⟩, 1, some 1, some 5⟩] :=
  ⟨rfl,
   (create_or_update_behavior [] ⟨2020, 1, 1, 0, 0, 0⟩ 9 ⟨none, some 1, some 3⟩ rfl).1
     3 rfl rfl (by decide) (by decide),
   (create_or_update_behavior [] ⟨2020, 1, 1, 0, 0, 0⟩ 9 ⟨none, some 1, some 5⟩ rfl).2.1
     rfl rfl⟩

/-! ### C6: snapshot decoding is fail-open, not fail-closed -/

/-- C6 counterexample: a sensor element whose `id` fails integer
coercion does not abort the fetch — its per-field error list is
non-empty, yet `receive_objects` still returns a snapshot containing a
partial record for it (the failed field left `None`). -/
theorem receive_objects_fail_open :
    (loadSensor badSensorElem).2 ≠ [] ∧
    (receiveObjects [] [] [badSensorElem]).2.2
      = [⟨none, some "S", none, none, none⟩] :=
  ⟨by decide, by decide⟩

/-- C6 amended: the decode stage never aborts: every element of every
collection — including elements with field-coercion failures — yields
exactly one (possibly partial) model record in the returned snapshot. -/
theorem receive_objects_total (objs ctrls sens : List JObj) (el : JObj)
    (hel : el ∈ sens) :
    (loadSensor el).1 ∈ (receiveObjects objs ctrls sens).2.2 ∧
    (receiveObjects objs ctrls sens).1.length = objs.length ∧
    (receiveObjects objs ctrls sens).2.1.length = ctrls.length ∧
    (receiveObjects objs ctrls sens).2.2.length = sens.length := by
  refine ⟨?_, by simp [receiveObjects], by simp [receiveObjects], by simp [receiveObjects]⟩
  exact List.mem_map_of_mem (fun o => (loadSensor o).1) hel

theorem receive_objects_total_witness :
    badSensorElem ∈ [badSensorElem] ∧
    ((loadSensor badSensorElem).1 ∈ (receiveObjects [] [] [badSensorElem]).2.2 ∧
    (receiveObjects [] [] [badSensorElem]).1.length = ([] : List JObj).length ∧
    (receiveObjects [] [] [badSensorElem]).2.1.length = ([] : List JObj).length ∧
    (receiveObjects [] [] [badSensorElem]).2.2.length = [badSensorElem].length) :=
  ⟨List.mem_singleton_self _,
   receive_objects_total [] [] [badSensorElem] badSensorElem (List.mem_singleton_self _)⟩

/-! ### C3: `get_first_sensor_data_date` is first-by-id, not minimum -/

theorem minIdRow_eq_none_iff (l : List SensorData) : minIdRow l = none ↔ l = [] := by
  cases l with
  | nil => simp [minIdRow]
  | cons r rest =>
    simp only [minIdRow]
    cases minIdRow rest with
    | none => simp
    | some r2 => by_cases h : r.id ≤ r2.id <;> simp [h]

theorem minIdRow_mem_le (l : List SensorData) (r : SensorData)
    (h : minIdRow l = some r) : r ∈ l ∧ ∀ x ∈ l, r.id ≤ x.id := by
  induction l generalizing r with
  | nil => simp [minIdRow] at h
  | cons a rest ih =>
    simp only [minIdRow] at h
    cases hrest : minIdRow rest with
    | none =>
      rw [hrest] at h
      have : rest = [] := (minIdRow_eq_none_iff rest).mp hrest
      subst this
      simp at h
      subst h
      simp
    | some r2 =>
      rw [hrest] at h
      obtain ⟨hmem, hle⟩ := ih r2 hrest
      have h2 : (if a.id ≤ r2.id then some a else some r2) = some r := h
      by_cases hc : a.id ≤ r2.id
      · rw [if_pos hc] at h2
        simp at h2
        subst h2
        refine ⟨List.mem_cons_self _ _, ?_⟩
        intro x hx
        rcases List.mem_cons.mp hx with hx | hx
        · subst hx; exact Nat.le_refl _
        · exact Nat.le_trans hc (hle x hx)
      · rw [if_neg hc] at h2
        simp at h2
        subst h2
        refine ⟨List.mem_cons_of_mem _ hmem, ?_⟩
        intro x hx
        rcases List.mem_cons.mp hx with hx | hx
        · subst hx; exact Nat.le_of_lt (Nat.lt_of_not_le hc)
        · exact hle x hx

/-- C3 counterexample: with two readings of the same sensor inserted out
of chronological order, the function returns the first-inserted (least
id) reading's timestamp even though a strictly earlier timestamp is
stored, so it is not the minimum over the readings. -/
theorem first_date_not_min :
    get_first_sensor_data_date outOfOrderReadings "S1"
      = some ⟨2023, 1, 2, 0, 0, 0⟩ ∧
    (⟨2, "S1", ⟨2023, 1, 1, 0, 0, 0⟩, []⟩ : SensorData)
      ∈ rowsForSensor outOfOrderReadings "S1" ∧
    dtLt ⟨2023, 1, 1, 0, 0, 0⟩ ⟨2023, 1, 2, 0, 0, 0⟩ = true :=
  ⟨by decide, by decide, by decide⟩

/-- C3 amended: the function returns `none` exactly when the sensor has
no readings; otherwise it returns the timestamp of the reading with the
least id (the earliest-inserted one), which is the minimum timestamp
whenever timestamps are monotone in insertion order — but not for
arbitrary insertion orders. -/
theorem first_date_least_id (rows : List SensorData) (sid : String) :
    (get_first_sensor_data_date rows sid = none ↔ rowsForSensor rows sid = []) ∧
    (∀ d, get_first_sensor_data_date rows sid = some d →
      ∃ r ∈ rowsForSensor rows sid, r.timestamp = d
        ∧ ∀ x ∈ rowsForSensor rows sid, r.id ≤ x.id) ∧
    ((∀ a ∈ rowsForSensor rows sid, ∀ b ∈ rowsForSensor rows sid,
        a.id ≤ b.id → dtLe a.timestamp b.timestamp = true) →
      ∀ d, get_first_sensor_data_date rows sid = some d →
        ∀ x ∈ rowsForSensor rows sid, dtLe d x.timestamp = true) := by
  refine ⟨?_, ?_, ?_⟩
  · simp [get_first_sensor_data_date, minIdRow_eq_none_iff]
  · intro d hd
    simp only [get_first_sensor_data_date, Option.map_eq_some'] at hd
    obtain ⟨r, hr, hts⟩ := hd
    obtain ⟨hmem, hle⟩ := minIdRow_mem_le _ r hr
    exact ⟨r, hmem, hts, hle⟩
  · intro hmono d hd x hx
    simp only [get_first_sensor_data_date, Option.map_eq_some'] at hd
    obtain ⟨r, hr, hts⟩ := hd
    obtain ⟨hmem, hle⟩ := minIdRow_mem_le _ r hr
    rw [← hts]
    exact hmono r hmem x hx (hle x hx)

theorem first_date_least_id_witness :
    get_first_sensor_data_date scenarioReadings "S1"
      = some ⟨2023, 1, 1, 0, 0, 0⟩ ∧
    (∃ r ∈ rowsForSensor scenarioReadings "S1",
      r.timestamp = (⟨2023, 1, 1, 0, 0, 0⟩ : DateTime)
        ∧ ∀ x ∈ rowsForSensor scenarioReadings "S1", r.id ≤ x.id) :=
  ⟨by decide,
   (first_date_least_id scenarioReadings "S1").2.1 ⟨2023, 1, 1, 0, 0, 0⟩ (by decide)⟩

/-! ### C1/C2: the record reconciler

Helper lemmas about the dict model, the two loops of `_sync_record`,
and the effect of the issued operation batch on the table. -/

theorem getVal_of_not_hasKey (m : RecDict) (k : Int) (h : hasKey m k = false) :
    getVal m k = none := by
  induction m with
  | nil => rfl
  | cons p rest ih =>
    simp only [hasKey, Bool.or_eq_false_iff] at h
    simp [getVal, h.1, ih h.2]

theorem beq_entry_false_of_not_hasKey (m : RecDict) (k : Int)
    (h : hasKey m k = false) : ∀ p ∈ m, (p.1 == k) = false := by
  induction m with
  | nil => intro p hp; simp at hp
  | cons q rest ih =>
    simp only [hasKey, Bool.or_eq_false_iff] at h
    intro p hp
    rcases List.mem_cons.mp hp with hp | hp
    · subst hp; exact h.1
    · exact ih h.2 p hp

theorem hasKey_append (m1 m2 : RecDict) (k : Int) :
    hasKey (m1 ++ m2) k = (hasKey m1 k || hasKey m2 k) := by
  induction m1 with
  | nil => simp [hasKey]
  | cons p rest ih => simp [hasKey, ih, Bool.or_assoc]

theorem getVal_append_right (m1 m2 : RecDict) (k : Int)
    (h : hasKey m1 k = false) : getVal (m1 ++ m2) k = getVal m2 k := by
  induction m1 with
  | nil => rfl
  | cons p rest ih =>
    simp only [hasKey, Bool.or_eq_false_iff] at h
    simp [getVal, h.1, ih h.2]

theorem getVal_map_set (m : RecDict) (k k' : Int) (v : Option Rec) (h : k' ≠ k) :
    getVal (m.map (fun p => if p.1 == k then (k, v) else p)) k' = getVal m k' := by
  induction m with
  | nil => rfl
  | cons p rest ih =>
    simp only [List.map_cons]
    by_cases hp : p.1 = k
    · rw [if_pos (by simp [hp])]
      simp only [getVal]
      rw [if_neg (by simp [Ne.symm h]), if_neg (by simp [hp, Ne.symm h])]
      exact ih
    · rw [if_neg (by simp [hp])]
      simp only [getVal]
      by_cases hpk : p.1 = k'
      · rw [if_pos (by simp [hpk]), if_pos (by simp [hpk])]
      · rw [if_neg (by simp [hpk]), if_neg (by simp [hpk])]
        exact ih

theorem hasKey_map_set (m : RecDict) (k k' : Int) (v : Option Rec) (h : k' ≠ k) :
    hasKey (m.map (fun p => if p.1 == k then (k, v) else p)) k' = hasKey m k' := by
  induction m with
  | nil => rfl
  | cons p rest ih =>
    simp only [List.map_cons]
    by_cases hp : p.1 = k
    · rw [if_pos (by simp [hp])]
      simp only [hasKey, ih]
      congr 1
      simp [hp]
    · rw [if_neg (by simp [hp])]
      simp only [hasKey, ih]

theorem getVal_append_single_ne (m : RecDict) (k k' : Int) (v : Option Rec)
    (h : k' ≠ k) : getVal (m ++ [(k, v)]) k' = getVal m k' := by
  induction m with
  | nil => simp [getVal, Ne.symm h]
  | cons p rest ih =>
    simp only [List.cons_append, getVal, List.append_eq]
    rw [ih]

theorem getVal_dictSet_ne (m : RecDict) (k k' : Int) (v : Option Rec)
    (h : k' ≠ k) : getVal (dictSet m k v) k' = getVal m k' := by
  unfold dictSet
  by_cases hk : hasKey m k
  · rw [if_pos hk]
    exact getVal_map_set m k k' v h
  · rw [if_neg hk]
    exact getVal_append_single_ne m k k' v h

theorem hasKey_dictSet_ne (m : RecDict) (k k' : Int) (v : Option Rec)
    (h : k' ≠ k) : hasKey (dictSet m k v) k' = hasKey m k' := by
  unfold dictSet
  by_cases hk : hasKey m k
  · rw [if_pos hk]
    exact hasKey_map_set m k k' v h
  · rw [if_neg hk, hasKey_append]
    simp [hasKey, Ne.symm h]

theorem dictSet_fresh (m : RecDict) (k : Int) (v : Option Rec)
    (h : hasKey m k = false) : dictSet m k v = m ++ [(k, v)] := by
  simp [dictSet, h]

theorem int_beq_comm (a b : Int) : (a == b) = (b == a) := by
  by_cases h : a = b
  · simp [h]
  · simp [h, Ne.symm h]

theorem buildMapFrom_eq (new : List Rec) : ∀ m : RecDict,
    (new.map Rec.id).Nodup → (∀ r ∈ new, hasKey m r.id = false) →
    buildMapFrom m new = m ++ new.map (fun r => (r.id, some r)) := by
  induction new with
  | nil => intro m _ _; simp [buildMapFrom]
  | cons r rest ih =>
    intro m hnd hfresh
    simp only [List.map_cons, List.nodup_cons] at hnd
    have hf : hasKey m r.id = false := hfresh r (List.mem_cons_self _ _)
    have hfresh2 : ∀ r' ∈ rest, hasKey (m ++ [(r.id, some r)]) r'.id = false := by
      intro r' hr'
      rw [hasKey_append]
      have h1 := hfresh r' (List.mem_cons_of_mem _ hr')
      have h2 : r.id ≠ r'.id := fun hh =>
        hnd.1 (by rw [hh]; exact List.mem_map_of_mem Rec.id hr')
      simp [h1, hasKey, h2]
    simp only [buildMapFrom]
    rw [dictSet_fresh m r.id (some r) hf, ih _ hnd.2 hfresh2]
    simp

theorem buildMap_eq (new : List Rec) (h : (new.map Rec.id).Nodup) :
    buildMap new = new.map (fun r => (r.id, some r)) := by
  have h2 := buildMapFrom_eq new [] h (fun r _ => rfl)
  simpa [buildMap] using h2

theorem getVal_assoc_of_new (new : List Rec) (i : Int) :
    getVal (new.map (fun r => (r.id, some r))) i = findById new i := by
  induction new with
  | nil => rfl
  | cons r rest ih =>
    simp only [List.map_cons, getVal, findById]
    by_cases hr : r.id = i
    · rw [if_pos (by simp [hr]), List.find?_cons_of_pos _ (by simp [hr])]
    · rw [if_neg (by simp [hr]), List.find?_cons_of_neg _ (by simp [hr])]
      exact ih

theorem hasKey_assoc_of_new (new : List Rec) (i : Int) :
    hasKey (new.map (fun r => (r.id, some r))) i = new.any (fun r => r.id == i) := by
  induction new with
  | nil => rfl
  | cons r rest ih =>
    simp only [List.map_cons, hasKey, List.any_cons, ih]

theorem mapCongrMem (l : List α) (f g : α → β) (h : ∀ a ∈ l, f a = g a) :
    l.map f = l.map g := by
  induction l with
  | nil => rfl
  | cons a rest ih =>
    simp only [List.map_cons]
    rw [h a (List.mem_cons_self _ _), ih (fun x hx => h x (List.mem_cons_of_mem _ hx))]

theorem filterCongrMem (l : List α) (p q : α → Bool) (h : ∀ a ∈ l, p a = q a) :
    l.filter p = l.filter q := by
  induction l with
  | nil => rfl
  | cons a rest ih =>
    simp only [List.filter_cons]
    rw [h a (List.mem_cons_self _ _), ih (fun x hx => h x (List.mem_cons_of_mem _ hx))]

theorem anyMapRecId (db : List Rec) (x : Int) :
    (db.map Rec.id).any (fun i => i == x) = db.any (fun dbr => dbr.id == x) := by
  induction db with
  | nil => rfl
  | cons dbr rest ih => simp only [List.map_cons, List.any_cons, ih]

theorem dropKeysL_nil (m : RecDict) : dropKeysL m [] = m := by
  simp [dropKeysL]

theorem insertOps_append (m1 m2 : RecDict) :
    insertOps (m1 ++ m2) = insertOps m1 ++ insertOps m2 := by
  simp [insertOps, List.filterMap_append]

theorem insertOps_dropKeysL_dictSet (m : RecDict) (k : Int) (ids : List Int) :
    insertOps (dropKeysL (dictSet m k none) ids) = insertOps (dropKeysL m (k :: ids)) := by
  by_cases hk : hasKey m k
  · unfold dictSet
    rw [if_pos hk]
    unfold dropKeysL
    rw [List.map_map]
    have hmaps : ∀ p ∈ m,
        ((fun p => if ids.any (fun i => i == p.1) then (p.1, (none : Option Rec)) else p) ∘
          (fun p => if p.1 == k then (k, (none : Option Rec)) else p)) p
        = (fun p => if (k :: ids).any (fun i => i == p.1) then (p.1, (none : Option Rec)) else p) p := by
      intro p _
      by_cases hp : p.1 = k
      · simp [Function.comp, hp]
      · simp [Function.comp, hp, Ne.symm hp]
    rw [mapCongrMem m _ _ hmaps]
  · have hk2 : hasKey m k = false := by simpa using hk
    rw [dictSet_fresh m k none hk2]
    unfold dropKeysL
    rw [List.map_append, insertOps_append]
    have h1 : insertOps (List.map
        (fun p => if ids.any (fun i => i == p.1) then (p.1, (none : Option Rec)) else p)
        [(k, none)]) = [] := by
      simp only [List.map_cons, List.map_nil]
      split <;> rfl
    rw [h1, List.append_nil]
    have hmaps : ∀ p ∈ m,
        (fun p => if ids.any (fun i => i == p.1) then (p.1, (none : Option Rec)) else p) p
        = (fun p => if (k :: ids).any (fun i => i == p.1) then (p.1, (none : Option Rec)) else p) p := by
      intro p hp
      have hpk : (p.1 == k) = false := beq_entry_false_of_not_hasKey m k hk2 p hp
      have hkp : (k == p.1) = false := by rw [int_beq_comm]; exact hpk
      simp [List.any_cons, hkp]
    rw [mapCongrMem m _ _ hmaps]

theorem insertOps_dropKeysL_new (new : List Rec) (ids : List Int) :
    insertOps (dropKeysL (new.map (fun r => (r.id, some r))) ids)
      = (new.filter (fun r => !(ids.any (fun i => i == r.id)))).map Op.insert := by
  induction new with
  | nil => rfl
  | cons r rest ih =>
    simp only [dropKeysL] at ih ⊢
    simp only [List.map_cons]
    by_cases hc : ids.any (fun i => i == r.id)
    · rw [if_pos hc]
      simp only [insertOps, List.filterMap_cons, Option.map_none', List.filter_cons, hc,
        Bool.not_true] at ih ⊢
      exact ih
    · have hc2 : (ids.any fun i => i == r.id) = false := Bool.eq_false_iff.mpr hc
      rw [if_neg hc]
      simp only [insertOps, List.filterMap_cons, Option.map_some', List.filter_cons, hc2,
        Bool.not_false, List.map_cons] at ih ⊢
      rw [ih]
      simp

theorem runDbLoop_spec : ∀ (db : List Rec) (m : RecDict),
    (db.map Rec.id).Nodup →
    (∀ dbr ∈ db, hasKey m dbr.id = true → (getVal m dbr.id).isSome = true) →
    ∃ m2, runDbLoop db m
        = some (db.map (fun x =>
            match getVal m x.id with
            | some r => Op.update x.id r
            | none => Op.delete x.id), m2)
      ∧ insertOps m2 = insertOps (dropKeysL m (db.map Rec.id)) := by
  intro db
  induction db with
  | nil =>
    intro m _ _
    exact ⟨m, rfl, by rw [List.map_nil, dropKeysL_nil]⟩
  | cons dbr rest ih =>
    intro m hnd hsome
    simp only [List.map_cons, List.nodup_cons] at hnd
    have hne : ∀ x ∈ rest, x.id ≠ dbr.id := by
      intro x hx hh
      exact hnd.1 (by rw [← hh]; exact List.mem_map_of_mem Rec.id hx)
    have hsome2 : ∀ x ∈ rest, hasKey (dictSet m dbr.id none) x.id = true →
        (getVal (dictSet m dbr.id none) x.id).isSome = true := by
      intro x hx
      rw [hasKey_dictSet_ne m dbr.id x.id none (hne x hx),
          getVal_dictSet_ne m dbr.id x.id none (hne x hx)]
      exact hsome x (List.mem_cons_of_mem _ hx)
    obtain ⟨m2, hrun, hins⟩ := ih (dictSet m dbr.id none) hnd.2 hsome2
    have htail : rest.map (fun x =>
          match getVal (dictSet m dbr.id none) x.id with
          | some r => Op.update x.id r
          | none => Op.delete x.id)
        = rest.map (fun x =>
          match getVal m x.id with
          | some r => Op.update x.id r
          | none => Op.delete x.id) :=
      mapCongrMem _ _ _ (fun x hx => by
        rw [getVal_dictSet_ne m dbr.id x.id none (hne x hx)])
    have hins2 : insertOps m2 = insertOps (dropKeysL m ((dbr :: rest).map Rec.id)) := by
      rw [hins, insertOps_dropKeysL_dictSet, List.map_cons]
    by_cases hk : hasKey m dbr.id
    · have hs := hsome dbr (List.mem_cons_self _ _) hk
      cases hv : getVal m dbr.id with
      | none => rw [hv] at hs; simp at hs
      | some r =>
        refine ⟨m2, ?_, hins2⟩
        simp only [runDbLoop, List.map_cons]
        rw [if_pos hk, hv, hrun, htail]
    · refine ⟨m2, ?_, hins2⟩
      have hk2 : hasKey m dbr.id = false := Bool.eq_false_iff.mpr hk
      have hv : getVal m dbr.id = none := getVal_of_not_hasKey m dbr.id hk2
      simp only [runDbLoop, List.map_cons]
      rw [if_neg hk, hv, hrun, htail]

theorem syncRecord_eq (db new : List Rec) (hdb : (db.map Rec.id).Nodup)
    (hnew : (new.map Rec.id).Nodup) :
    syncRecord db new = some (reconcileOps db new) := by
  have hbm := buildMap_eq new hnew
  have hsome : ∀ dbr ∈ db, hasKey (buildMap new) dbr.id = true →
      (getVal (buildMap new) dbr.id).isSome = true := by
    intro dbr _ hk
    rw [hbm, hasKey_assoc_of_new] at hk
    rw [hbm, getVal_assoc_of_new]
    obtain ⟨r, hr, hpr⟩ := List.any_eq_true.mp hk
    unfold findById
    rw [List.find?_isSome]
    exact ⟨r, hr, hpr⟩
  obtain ⟨m2, hrun, hins⟩ := runDbLoop_spec db (buildMap new) hdb hsome
  have hdbops : db.map (fun x =>
        match getVal (buildMap new) x.id with
        | some r => Op.update x.id r
        | none => Op.delete x.id)
      = db.map (fun x =>
        match findById new x.id with
        | some r => Op.update x.id r
        | none => Op.delete x.id) :=
    mapCongrMem _ _ _ (fun x _ => by rw [hbm, getVal_assoc_of_new])
  have hins3 : insertOps m2
      = (new.filter (fun r => !(db.any (fun dbr => dbr.id == r.id)))).map Op.insert := by
    rw [hins, hbm, insertOps_dropKeysL_new]
    congr 1
    exact filterCongrMem _ _ _ (fun r _ => by rw [anyMapRecId])
  unfold syncRecord
  rw [hrun, hdbops]
  show some (db.map (fun x =>
        match findById new x.id with
        | some r => Op.update x.id r
        | none => Op.delete x.id) ++ insertOps m2)
      = some (reconcileOps db new)
  rw [hins3]
  rfl

theorem mapIdMem (l : List α) (f : α → α) (h : ∀ a ∈ l, f a = a) : l.map f = l := by
  induction l with
  | nil => rfl
  | cons a rest ih =>
    simp only [List.map_cons]
    rw [h a (List.mem_cons_self _ _), ih (fun x hx => h x (List.mem_cons_of_mem _ hx))]

theorem filterSelfMem (l : List α) (p : α → Bool) (h : ∀ a ∈ l, p a = true) :
    l.filter p = l := by
  induction l with
  | nil => rfl
  | cons a rest ih =>
    simp only [List.filter_cons, h a (List.mem_cons_self _ _), if_true]
    rw [ih (fun x hx => h x (List.mem_cons_of_mem _ hx))]

theorem applyOps_append (s : List Rec) (ops1 ops2 : List Op) :
    applyOps s (ops1 ++ ops2) = applyOps (applyOps s ops1) ops2 := by
  induction ops1 generalizing s with
  | nil => rfl
  | cons op rest ih => simp only [List.cons_append, applyOps, List.append_eq, ih]

theorem applyOps_inserts (s : List Rec) (rs : List Rec) :
    applyOps s (rs.map Op.insert) = s ++ rs := by
  induction rs generalizing s with
  | nil => simp [applyOps]
  | cons r rest ih =>
    simp only [List.map_cons, applyOps, applyOp]
    rw [ih]
    simp

theorem applyOps_cons_untouched (x : Rec) : ∀ (ops : List Op) (s : List Rec),
    (∀ j r, Op.update j r ∈ ops → (x.id == j) = false) →
    (∀ j, Op.delete j ∈ ops → (x.id == j) = false) →
    applyOps (x :: s) ops = x :: applyOps s ops := by
  intro ops
  induction ops with
  | nil => intro s _ _; rfl
  | cons op rest ih =>
    intro s hu hd
    cases op with
    | update j r =>
      have hbeq := hu j r (List.mem_cons_self _ _)
      simp only [applyOps, applyOp, List.map_cons, hbeq, Bool.false_eq_true, if_false]
      exact ih _ (fun j' r' hm => hu j' r' (List.mem_cons_of_mem _ hm))
        (fun j' hm => hd j' (List.mem_cons_of_mem _ hm))
    | delete j =>
      have hbeq := hd j (List.mem_cons_self _ _)
      simp only [applyOps, applyOp, List.filter_cons, hbeq, Bool.not_false, if_true]
      exact ih _ (fun j' r' hm => hu j' r' (List.mem_cons_of_mem _ hm))
        (fun j' hm => hd j' (List.mem_cons_of_mem _ hm))
    | insert r =>
      simp only [applyOps, applyOp, List.cons_append]
      exact ih _ (fun j' r' hm => hu j' r' (List.mem_cons_of_mem _ hm))
        (fun j' hm => hd j' (List.mem_cons_of_mem _ hm))

theorem applyOps_dbOps : ∀ (db new : List Rec), (db.map Rec.id).Nodup →
    applyOps db (db.map (fun x =>
        match findById new x.id with
        | some r => Op.update x.id r
        | none => Op.delete x.id))
      = db.filterMap (fun x => findById new x.id) := by
  intro db
  induction db with
  | nil => intro new _; rfl
  | cons dbr rest ih =>
    intro new hdb
    simp only [List.map_cons, List.nodup_cons] at hdb
    have hne : ∀ x ∈ rest, (x.id == dbr.id) = false := by
      intro x hx
      have hx2 : x.id ≠ dbr.id := fun hh =>
        hdb.1 (by rw [← hh]; exact List.mem_map_of_mem Rec.id hx)
      simp [hx2]
    have hju : ∀ j rr, Op.update j rr ∈ rest.map (fun x =>
        match findById new x.id with
        | some r => Op.update x.id r
        | none => Op.delete x.id) → (dbr.id == j) = false := by
      intro j rr hm
      obtain ⟨x, hx, hop⟩ := List.mem_map.mp hm
      cases hfx : findById new x.id with
      | some rr2 =>
        rw [hfx] at hop
        cases hop
        rw [int_beq_comm]
        exact hne x hx
      | none =>
        rw [hfx] at hop
        cases hop
    have hjd : ∀ j, Op.delete j ∈ rest.map (fun x =>
        match findById new x.id with
        | some r => Op.update x.id r
        | none => Op.delete x.id) → (dbr.id == j) = false := by
      intro j hm
      obtain ⟨x, hx, hop⟩ := List.mem_map.mp hm
      cases hfx : findById new x.id with
      | some rr2 =>
        rw [hfx] at hop
        cases hop
      | none =>
        rw [hfx] at hop
        cases hop
        rw [int_beq_comm]
        exact hne x hx
    cases hf : findById new dbr.id with
    | some r =>
      have hrid : r.id = dbr.id := by
        have hb := List.find?_some hf
        simpa using hb
      simp only [List.map_cons, List.filterMap_cons, hf, applyOps, applyOp]
      rw [if_pos (show (dbr.id == dbr.id) = true by simp)]
      rw [mapIdMem rest _ (fun x hx => by rw [hne x hx]; rfl)]
      rw [applyOps_cons_untouched r _ _
        (fun j rr hm => by rw [hrid]; exact hju j rr hm)
        (fun j hm => by rw [hrid]; exact hjd j hm)]
      rw [ih new hdb.2]
    | none =>
      simp only [List.map_cons, List.filterMap_cons, hf, applyOps, applyOp]
      rw [List.filter_cons]
      rw [if_neg (by simp)]
      rw [filterSelfMem rest _ (fun x hx => by rw [hne x hx]; rfl)]
      rw [ih new hdb.2]

theorem findById_self (new : List Rec) (hnew : (new.map Rec.id).Nodup)
    (r : Rec) (h : r ∈ new) : findById new r.id = some r := by
  have hs : (findById new r.id).isSome := by
    unfold findById
    rw [List.find?_isSome]
    exact ⟨r, h, by simp⟩
  obtain ⟨x, hx⟩ := Option.isSome_iff_exists.mp hs
  have hxmem : x ∈ new := List.mem_of_find?_eq_some hx
  have hxid : x.id = r.id := by
    have hb := List.find?_some hx
    simpa using hb
  have hxr : x = r := List.inj_on_of_nodup_map hnew hxmem h hxid
  rw [hx, hxr]

theorem mem_applyOps_reconcile (db new : List Rec) (hdb : (db.map Rec.id).Nodup)
    (hnew : (new.map Rec.id).Nodup) (r : Rec) :
    r ∈ applyOps db (reconcileOps db new) ↔ r ∈ new := by
  unfold reconcileOps
  rw [applyOps_append, applyOps_dbOps db new hdb, applyOps_inserts]
  constructor
  · intro h
    rcases List.mem_append.mp h with h | h
    · obtain ⟨x, hx, hfx⟩ := List.mem_filterMap.mp h
      exact List.mem_of_find?_eq_some hfx
    · exact (List.mem_filter.mp h).1
  · intro h
    rw [List.mem_append]
    by_cases hc : db.any (fun dbr => dbr.id == r.id)
    · left
      obtain ⟨dbr, hdbr, hpr⟩ := List.any_eq_true.mp hc
      have hdr : dbr.id = r.id := by simpa using hpr
      refine List.mem_filterMap.mpr ⟨dbr, hdbr, ?_⟩
      rw [hdr]
      exact findById_self new hnew r h
    · right
      have hc2 : (db.any fun dbr => dbr.id == r.id) = false := Bool.eq_false_iff.mpr hc
      exact List.mem_filter.mpr ⟨h, by simp [hc2]⟩

theorem filterMapSelfMem (l : List α) (f : α → Option α) (h : ∀ a ∈ l, f a = some a) :
    l.filterMap f = l := by
  induction l with
  | nil => rfl
  | cons a rest ih =>
    simp only [List.filterMap_cons, h a (List.mem_cons_self _ _)]
    rw [ih (fun x hx => h x (List.mem_cons_of_mem _ hx))]

theorem filterFalseMem (l : List α) (p : α → Bool) (h : ∀ a ∈ l, p a = false) :
    l.filter p = [] := by
  induction l with
  | nil => rfl
  | cons a rest ih =>
    simp only [List.filter_cons, h a (List.mem_cons_self _ _), Bool.false_eq_true, if_false]
    exact ih (fun x hx => h x (List.mem_cons_of_mem _ hx))

theorem filterNotAnySelf (D : List Rec) :
    D.filter (fun r => !(D.any fun dbr => dbr.id == r.id)) = [] := by
  apply filterFalseMem
  intro r hr
  have hany : (D.any fun dbr => dbr.id == r.id) = true :=
    List.any_eq_true.mpr ⟨r, hr, by simp⟩
  rw [hany]
  rfl

theorem reconcileOps_self (D : List Rec) (h : (D.map Rec.id).Nodup) :
    reconcileOps D D = D.map (fun r => Op.update r.id r) := by
  unfold reconcileOps
  have h1 : D.map (fun x =>
        match findById D x.id with
        | some r => Op.update x.id r
        | none => Op.delete x.id)
      = D.map (fun r => Op.update r.id r) :=
    mapCongrMem _ _ _ (fun x hx => by rw [findById_self D h x hx])
  rw [h1, filterNotAnySelf]
  simp

/-- C1: under unique ids on both sides, `_sync_record` issues exactly the
spec's operation batch — an update (to the desired values) for each
local row with a desired counterpart, a delete for each other local row,
an insert for each desired record with no local counterpart — and
applying that batch leaves the table holding exactly the desired record
set.  The empty cases are instances: an empty desired set yields only
deletes, an empty local set only inserts. -/
theorem sync_record_reconciles (db new : List Rec)
    (hdb : (db.map Rec.id).Nodup) (hnew : (new.map Rec.id).Nodup) :
    syncRecord db new = some (reconcileOps db new) ∧
    ∀ r, r ∈ applyOps db (reconcileOps db new) ↔ r ∈ new :=
  ⟨syncRecord_eq db new hdb hnew, fun r => mem_applyOps_reconcile db new hdb hnew r⟩

theorem sync_record_reconciles_witness :
    ((scenarioDb.map Rec.id).Nodup ∧ (scenarioNew.map Rec.id).Nodup) ∧
    (syncRecord scenarioDb scenarioNew = some (reconcileOps scenarioDb scenarioNew) ∧
      ∀ r, r ∈ applyOps scenarioDb (reconcileOps scenarioDb scenarioNew) ↔
        r ∈ scenarioNew) ∧
    reconcileOps scenarioDb scenarioNew
      = [Op.delete 1, Op.update 2 ⟨2, "B2"⟩, Op.insert ⟨3, "C"⟩] ∧
    applyOps scenarioDb (reconcileOps scenarioDb scenarioNew) = scenarioNew ∧
    syncRecord [] scenarioNew = some [Op.insert ⟨2, "B2"⟩, Op.insert ⟨3, "C"⟩] ∧
    syncRecord scenarioDb [] = some [Op.delete 1, Op.delete 2] :=
  ⟨⟨by decide, by decide⟩,
   sync_record_reconciles scenarioDb scenarioNew (by decide) (by decide),
   by decide, by decide, by decide, by decide⟩

/-- C2 counterexample: reconciling the one-record set `{id 1, name A}`
against itself issues one update operation, not zero operations: the
matching row is rewritten (with identical values), refuting "no update,
insert, or delete operation is issued". -/
theorem sync_self_issues_update :
    syncRecord [⟨1, "A"⟩] [⟨1, "A"⟩] = some [Op.update 1 ⟨1, "A"⟩] ∧
    some [Op.update 1 ⟨1, "A"⟩] ≠ some ([] : List Op) :=
  ⟨by decide, by decide⟩

/-- C2 amended: reconciling a set (with unique ids) against itself
issues no insert and no delete, but does issue one value-identical
update per record; the table contents after applying the batch are
unchanged, so the reconciliation is a no-op in effect though not in
issued operations. -/
theorem sync_self_fixed_point (D : List Rec) (h : (D.map Rec.id).Nodup) :
    syncRecord D D = some (D.map (fun r => Op.update r.id r)) ∧
    applyOps D (D.map (fun r => Op.update r.id r)) = D ∧
    ∀ op ∈ D.map (fun r => Op.update r.id r),
      (Op.isDelete op) = false ∧ (Op.isInsert op) = false := by
  have hrec := reconcileOps_self D h
  refine ⟨?_, ?_, ?_⟩
  · rw [← hrec]
    exact syncRecord_eq D D h h
  · rw [← hrec]
    unfold reconcileOps
    rw [applyOps_append, applyOps_dbOps D D h, applyOps_inserts, filterNotAnySelf,
        filterMapSelfMem D _ (fun x hx => findById_self D h x hx)]
    simp
  · intro op hop
    obtain ⟨r, _, hr⟩ := List.mem_map.mp hop
    rw [← hr]
    exact ⟨rfl, rfl⟩

theorem sync_self_fixed_point_witness :
    (scenarioNew.map Rec.id).Nodup ∧
    (syncRecord scenarioNew scenarioNew
        = some (scenarioNew.map (fun r => Op.update r.id r)) ∧
      applyOps scenarioNew (scenarioNew.map (fun r => Op.update r.id r)) = scenarioNew ∧
      ∀ op ∈ scenarioNew.map (fun r => Op.update r.id r),
        (Op.isDelete op) = false ∧ (Op.isInsert op) = false) :=
  ⟨by decide, sync_self_fixed_point scenarioNew (by decide)⟩

end ControllerWeb
